import Mathlib

/-!
Verification of the porto container subsystem (src/src/container.cpp) against
its natural-language specification.  The C++ core is shallowly embedded below:
pure fragments become Lean functions, the stateful operations become explicit
state-passing functions over record types, and machine integers become Nat/Int.
External effects (kernel cgroup writes, signals, logging, condition variables)
are not part of the modelled state; where a claim depends on code that lives in
headers outside src/ the definition is modelled from the spec and marked so.
-/

namespace Porto

/-- Error kinds of the closed enumeration `EError` (util/error.hpp / rpc.proto). -/
inductive EError where
  | Success
  | Unknown
  | InvalidValue
  | InvalidProperty
  | InvalidState
  | Permission
  | Busy
  | NotSupported
  | NoValue
  | ResourceNotAvailable
  | ContainerDoesNotExist
  | ContainerAlreadyExists
  | Queued
  deriving Repr, DecidableEq

/-- `TError`: kind plus text (`Errno` is irrelevant to the claims). -/
structure TError where
  kind : EError
  text : String
  deriving Repr, DecidableEq

/-- Container lifecycle states (`EContainerState`). -/
inductive CtState where
  | stopped
  | starting
  | running
  | meta
  | paused
  | stopping
  | dead
  | destroyed
  deriving Repr, DecidableEq

/-! ## Subtree lock manager — TContainer::Lock (container.cpp:152-190)

The per-container lock fields tested by `TContainer::Lock`.  `Locked` is a
signed counter (0 idle, >0 readers, -1 writer). -/

/-- Lock fields of one container (the spec's "Locking slots"). -/
structure LockSt where
  locked : Int
  pendingWrite : Bool
  subtreeRead : Nat
  subtreeWrite : Nat
  deriving Repr, DecidableEq

/-- The `busy` computation of `TContainer::Lock` (container.cpp:163-169):
self check on the target container followed by the walk over its ancestor
chain (nearest ancestor first). -/
def lockBusy (forRead : Bool) (x : LockSt) (ancs : List LockSt) : Bool :=
  (if forRead then
     decide (x.locked < 0) || x.pendingWrite || decide (x.subtreeWrite ≠ 0)
   else
     decide (x.locked ≠ 0) || decide (x.subtreeRead ≠ 0) || decide (x.subtreeWrite ≠ 0))
  || ancs.any (fun a =>
       a.pendingWrite || (if forRead then decide (a.locked < 0) else decide (a.locked ≠ 0)))

/-- A lock request on a container that is not destroyed is granted at once
exactly when the `busy` test of container.cpp:163-169 fails. -/
def lockGranted (forRead : Bool) (x : LockSt) (ancs : List LockSt) : Bool :=
  ! lockBusy forRead x ancs

/-- The write-lock grant condition exactly as the claim words it: X not locked
at all, no subtree reader or writer, and no ancestor write-locked or with a
pending writer (an ancestor holding only a read lock does not block). -/
def claimWriteGranted (x : LockSt) (ancs : List LockSt) : Bool :=
  decide (x.locked = 0) && decide (x.subtreeRead = 0) && decide (x.subtreeWrite = 0)
  && ancs.all (fun a => !a.pendingWrite && decide (0 ≤ a.locked))

/-! ## Name validation — TContainer::ValidName (container.cpp:56-107)

Names are byte strings (`std::string`), modelled as `List Char`; an embedded
NUL byte is a legal `std::string` element and is modelled as `'\x00'`.
Constants from src/src/common.hpp. -/

def CONTAINER_NAME_MAX : Nat := 128

def CONTAINER_PATH_MAX : Nat := 200

def CONTAINER_PATH_MAX_FOR_SUPERUSER : Nat := 220

def ROOT_CONTAINER : List Char := ['/']

def SELF_CONTAINER : List Char := ['s', 'e', 'l', 'f']

def DOT_CONTAINER : List Char := ['.']

/-- The character cases of the switch in container.cpp:90-98:
`a..z`, `A..Z`, `0..9`, `_`, `-`, `@`, `:`, `.`. -/
def isNameChar (c : Char) : Bool :=
  ('a' ≤ c && c ≤ 'z') || ('A' ≤ c && c ≤ 'Z') || ('0' ≤ c && c ≤ '9') ||
  c == '_' || c == '-' || c == '@' || c == ':' || c == '.'

/-- The checks run on a finished component when the scan hits `'/'` or `'\0'`
(container.cpp:75-88), in source order. -/
def checkComponent (comp : List Char) : Option TError :=
  if comp = [] then
    some ⟨.InvalidValue, "double/trailing '/' in container path"⟩
  else if CONTAINER_NAME_MAX < comp.length then
    some ⟨.InvalidValue, "container name component too long"⟩
  else if comp = SELF_CONTAINER then
    some ⟨.InvalidValue, "container name 'self' is reserved"⟩
  else if comp = DOT_CONTAINER then
    some ⟨.InvalidValue, "container name '.' is reserved"⟩
  else
    none

/-- The scanning loop of container.cpp:71-104.  The C++ loop runs the index up
to and including `name.length()`, where `name[length]` reads the terminating
`'\0'`; the caller therefore passes `name ++ ['\x00']`.  `comp` accumulates the
bytes of the current component (between `first` and `i` in the source);
`'/'` and `'\0'` both hit the separator case of the switch. -/
def validLoop : List Char → List Char → Option TError
  | [], _ => none
  | c :: rest, comp =>
    if c = '/' ∨ c = '\x00' then
      match checkComponent comp with
      | some e => some e
      | none => validLoop rest []
    else if isNameChar c then
      validLoop rest (comp ++ [c])
    else
      some ⟨.InvalidValue, "forbidden character"⟩

/-- `path_max` as picked in container.cpp:61. -/
def pathMaxFor (superuser : Bool) : Nat :=
  if superuser then CONTAINER_PATH_MAX_FOR_SUPERUSER else CONTAINER_PATH_MAX

/-- `TContainer::ValidName` (container.cpp:56-107).  `none` is `OK`. -/
def validName (name : List Char) (superuser : Bool) : Option TError :=
  if name.length = 0 then
    some ⟨.InvalidValue, "container path too short"⟩
  else
    if pathMaxFor superuser < name.length then
      some ⟨.InvalidValue, "container path too long"⟩
    else if name.head? = some '/' then
      if name = ROOT_CONTAINER then none
      else some ⟨.InvalidValue, "container path starts with '/'"⟩
    else
      validLoop (name ++ ['\x00']) []

/-- Split a byte string into its `'/'`-separated components (the spec's
"`/`-separated path of components"). -/
def splitComps : List Char → List (List Char)
  | [] => [[]]
  | c :: rest =>
    if c = '/' then [] :: splitComps rest
    else (c :: (splitComps rest).headD []) :: (splitComps rest).tail

/-- The claim's requirements on one path component: non-empty, drawn from the
name charset, at most 128 bytes, and neither `self` nor `.`. -/
def goodComp (comp : List Char) : Bool :=
  comp.all isNameChar && decide (comp ≠ []) &&
  decide (comp.length ≤ CONTAINER_NAME_MAX) &&
  decide (comp ≠ SELF_CONTAINER) && decide (comp ≠ DOT_CONTAINER)

/-- The set of names the claim says are accepted: the reserved root name `/`,
or a `'/'`-separated path of good components whose total length is within the
(superuser-dependent) limit. -/
def claimValidName (name : List Char) (superuser : Bool) : Bool :=
  decide (name = ROOT_CONTAINER) ||
  (decide (name.length ≤ pathMaxFor superuser) && (splitComps name).all goodComp)

/-- A NUL byte inside the name behaves exactly like `'/'` in the scanning
loop; the amended acceptance condition therefore first maps NUL to `'/'`. -/
def mapNulToSlash (name : List Char) : List Char :=
  name.map fun c => if c = '\x00' then '/' else c

/-- The amended acceptance condition: as the claim states it, except that a
NUL byte acts as a component separator exactly like `'/'`. -/
def amendedValidName (name : List Char) (superuser : Bool) : Bool :=
  decide (name = ROOT_CONTAINER) ||
  (decide (name.length ≤ pathMaxFor superuser) &&
   (splitComps (mapNulToSlash name)).all goodComp)

/-! ## State machine counters — TContainer::SetState (container.cpp:790-818)

The forest of containers is indexed by creation order: a parent is always
registered before its children (and restore re-creates records ordered by
id), so a node's parent index is strictly smaller than its own.  `SetState`
only touches the transitioning node's `State` and the `StartingChildren` /
`RunningChildren` counters of every node on its ancestor chain. -/

/-- The fields of one container read or written by `SetState`. -/
structure CtNode where
  parent : Option Nat
  state : CtState
  startingChildren : Int
  runningChildren : Int
  deriving Repr, DecidableEq

/-- The container forest: nodes `0 .. len-1`. -/
structure CtForest where
  len : Nat
  node : Nat → CtNode

/-- The parent link followed by `ct->Parent`. -/
def parentOf (f : CtForest) (i : Nat) : Option Nat :=
  if i < f.len then (f.node i).parent else none

/-- Walk the parent chain (`for (auto p = Parent; p; p = p->Parent)`); the
fuel argument only serves termination and is irrelevant once it exceeds the
start index. -/
def chainFrom (f : CtForest) : Nat → Nat → List Nat
  | 0, _ => []
  | fuel + 1, i =>
    match parentOf f i with
    | none => []
    | some p => p :: chainFrom f fuel p

/-- The ancestor chain of node `i`, nearest ancestor first. -/
def ancestors (f : CtForest) (i : Nat) : List Nat :=
  chainFrom f f.len i

/-- Well-formed forest: every parent index is smaller than its child's. -/
def WFb (f : CtForest) : Bool :=
  (List.range f.len).all fun i =>
    match (f.node i).parent with
    | none => true
    | some p => decide (p < i)

/-- `p->StartingChildren += d` along a parent chain (container.cpp:801-803). -/
def bumpStarting (chain : List Nat) (d : Int) (f : CtForest) : CtForest :=
  chain.foldl
    (fun g p =>
      { g with
        node := Function.update g.node p
          ({ g.node p with startingChildren := (g.node p).startingChildren + d }) })
    f

/-- `p->RunningChildren += d` along a parent chain (container.cpp:805-811). -/
def bumpRunning (chain : List Nat) (d : Int) (f : CtForest) : CtForest :=
  chain.foldl
    (fun g p =>
      { g with
        node := Function.update g.node p
          ({ g.node p with runningChildren := (g.node p).runningChildren + d }) })
    f

/-- `State = next` (container.cpp:798). -/
def writeState (f : CtForest) (i : Nat) (next : CtState) : CtForest :=
  { f with node := Function.update f.node i ({ f.node i with state := next }) }

/-- `TContainer::SetState` (container.cpp:790-818): early return when the
state does not change; otherwise store the new state, then bump
`StartingChildren` on every ancestor when `Starting` is entered or left, and
`RunningChildren` likewise for `Running` (waiter notification has no modelled
state). -/
def setState (f : CtForest) (i : Nat) (next : CtState) : CtForest :=
  if i < f.len then
    let prev := (f.node i).state
    if prev = next then f
    else
      let f1 : CtForest := writeState f i next
      let f2 : CtForest :=
        if prev = .starting ∨ next = .starting then
          bumpStarting (ancestors f1 i) (if next = .starting then 1 else -1) f1
        else f1
      if prev = .running ∨ next = .running then
        bumpRunning (ancestors f2 i) (if next = .running then 1 else -1) f2
      else f2
  else f

/-- Number of strict descendants of `p` (nodes whose ancestor chain contains
`p`) that are in state `s`. -/
def descCount (f : CtForest) (p : Nat) (s : CtState) : Int :=
  (((Finset.range f.len).filter
      (fun j => p ∈ ancestors f j ∧ (f.node j).state = s)).card : Int)

/-- The counter invariant: every node's `StartingChildren` / `RunningChildren`
equals its number of descendants in state `Starting` / `Running`. -/
def invB (f : CtForest) : Bool :=
  (List.range f.len).all fun p =>
    decide ((f.node p).startingChildren = descCount f p .starting) &&
    decide ((f.node p).runningChildren = descCount f p .running)

/-- The claim's reading: the number of direct children of `p` that are in
state `s`. -/
def childCount (f : CtForest) (p : Nat) (s : CtState) : Int :=
  (((Finset.range f.len).filter
      (fun j => (f.node j).parent = some p ∧ (f.node j).state = s)).card : Int)

/-- A three-node forest: node 0 is the root (`Meta`), node 1 a running child
of the root, node 2 a stopped child of node 1; all counters consistent. -/
def exForest : CtForest :=
  ⟨3, fun j =>
    if j = 0 then ⟨none, .meta, 0, 1⟩
    else if j = 1 then ⟨some 0, .running, 0, 0⟩
    else ⟨some 1, .stopped, 0, 0⟩⟩

/-! ## Stop — TContainer::Stop (container.cpp:2529-2605), Save (2937-2967)

The subtree list is the DFS post-order produced by `TContainer::Subtree()`
(container.cpp:871-879): every node appears after all of its children, the
stop target last.  Signals sent by `Terminate` and the killing spree, cgroup
removal inside `FreeResources`, and lock downgrade/upgrade affect no modelled
field; `node.Save()` is modelled as always succeeding. -/

/-- The fields of one container read or written by `Stop`. -/
structure StopCt where
  isRoot : Bool
  state : CtState
  taskPid : Nat
  taskVPid : Nat
  waitTaskPid : Nat
  seizeTaskPid : Nat
  deathTime : Nat
  exitStatus : Int
  oomEvents : Nat
  oomKilled : Bool
  selfFrozen : Bool
  hasFreezer : Bool
  parentFrozen : Bool
  resourcesFreed : Bool
  deriving Repr, DecidableEq

/-- Containers by id, the key-value store (`ContainersKV/<id>`), and the ids
passed to `Save()` in call order. -/
structure StopWorld where
  cts : Nat → StopCt
  kv : Nat → Option StopCt
  savedIds : List Nat

/-- `TContainer::Save` (container.cpp:2937-2967): persist the receiver's own
record under its id. -/
def save (w : StopWorld) (i : Nat) : StopWorld :=
  { w with kv := Function.update w.kv i (some (w.cts i)),
           savedIds := w.savedIds ++ [i] }

/-- First loop of `Stop` (container.cpp:2556-2573): skip the system root and
already-stopped nodes; move to `Stopping`, terminate tasks (signals only),
thaw a self-frozen freezer. -/
def stopLoop1 (w : StopWorld) : List Nat → StopWorld
  | [] => w
  | i :: rest =>
    let ct := w.cts i
    if ct.isRoot ∨ ct.state = .stopped then
      stopLoop1 w rest
    else
      let ct1 := { ct with state := .stopping }
      let ct2 := if ct1.selfFrozen then { ct1 with selfFrozen := false } else ct1
      stopLoop1 { w with cts := Function.update w.cts i ct2 } rest

/-- Second loop of `Stop` (container.cpp:2578-2602): skip stopped nodes;
`ForgetPid`, clear death time, exit status and OOM state, free resources,
move to `Stopped` — and then `Save()`, which persists the record of the
container `Stop` was invoked on (the receiver), not of the iterated node. -/
def stopLoop2 (target : Nat) (w : StopWorld) : List Nat → StopWorld
  | [] => w
  | i :: rest =>
    let ct := w.cts i
    if ct.state = .stopped then
      stopLoop2 target w rest
    else
      let ct1 : StopCt :=
        { ct with
          taskPid := 0, taskVPid := 0, waitTaskPid := 0, seizeTaskPid := 0,
          deathTime := 0, exitStatus := 0,
          oomEvents := 0, oomKilled := false,
          resourcesFreed := true,
          state := .stopped }
      let w1 := { w with cts := Function.update w.cts i ct1 }
      stopLoop2 target (save w1 target) rest

/-- `TContainer::Stop` (container.cpp:2529-2605). -/
def stop (w : StopWorld) (target : Nat) (subtree : List Nat) (_timeout : Nat) :
    Except TError StopWorld :=
  let t := w.cts target
  if t.state = .stopped then .ok w
  else if ¬t.hasFreezer ∧ t.taskPid ≠ 0 then
    .error ⟨.NotSupported, "Cannot stop without freezer"⟩
  else if t.hasFreezer ∧ t.parentFrozen then
    .error ⟨.InvalidState, "Parent container is paused"⟩
  else
    .ok (stopLoop2 target (stopLoop1 w subtree) subtree)

/-- Extract the success value of an `Except`, with a default. -/
def exceptGetD {ε α : Type} (x : Except ε α) (d : α) : α :=
  match x with
  | .ok a => a
  | .error _ => d

/-- Container `1` (running, with tasks) and its running child `2`;
the key-value store holds no record yet. -/
def exStopWorld : StopWorld :=
  { cts := fun i =>
      if i = 1 then
        ⟨false, .running, 10, 10, 11, 0, 0, 0, 0, false, false, true, false, false⟩
      else if i = 2 then
        ⟨false, .running, 20, 20, 21, 0, 0, 0, 0, false, false, true, false, false⟩
      else
        ⟨false, .stopped, 0, 0, 0, 0, 0, 0, 0, false, false, true, false, false⟩,
    kv := fun _ => none,
    savedIds := [] }

/-- The world after `Stop` on container 1 with subtree `[2, 1]`. -/
def exStopResult : StopWorld :=
  exceptGetD (stop exStopWorld 1 [2, 1] 0) exStopWorld

/-! ## Pause / Resume — container.cpp:2674-2729

Freezer state is modelled per container: `selfFrozen` is the cgroup's
self-set FROZEN flag (`IsSelfFreezing`), `parentFrozen` the frozen state
inherited from the target's own ancestors (`IsParentFreezing`). -/

/-- The fields of one container read or written by `Pause`/`Resume`. -/
structure PauseCt where
  state : CtState
  /-- Modelled from the spec: `TContainer::IsMeta()` is declared in
  container.hpp, which is not part of src/; per the spec a meta container
  "holds no task", so this is the static no-command attribute of the
  container. -/
  isMeta : Bool
  selfFrozen : Bool
  hasFreezer : Bool
  parentFrozen : Bool
  deriving Repr, DecidableEq

/-- Containers by id plus their persisted records. -/
structure PauseWorld where
  cts : Nat → PauseCt
  kv : Nat → Option PauseCt

/-- Loop of `Pause` (container.cpp:2686-2695): every `Running`/`Meta` subtree
node becomes `Paused` and is saved (its own record). -/
def pauseLoop (w : PauseWorld) : List Nat → PauseWorld
  | [] => w
  | i :: rest =>
    let ct := w.cts i
    if ct.state = .running ∨ ct.state = .meta then
      let ct1 := { ct with state := .paused }
      pauseLoop
        { cts := Function.update w.cts i ct1,
          kv := Function.update w.kv i (some ct1) } rest
    else
      pauseLoop w rest

/-- `TContainer::Pause` (container.cpp:2674-2698). -/
def pause (w : PauseWorld) (target : Nat) (subtree : List Nat) :
    Except TError PauseWorld :=
  let t := w.cts target
  if ¬(t.state = .running ∨ t.state = .meta) then
    .error ⟨.InvalidState, "Contaner not running"⟩
  else if ¬t.hasFreezer then
    .error ⟨.NotSupported, "Cannot pause without freezer"⟩
  else
    let w1 : PauseWorld :=
      { w with cts := Function.update w.cts target ({ t with selfFrozen := true }) }
    .ok (pauseLoop w1 subtree)

/-- Loop of `Resume` (container.cpp:2715-2726): thaw each self-frozen subtree
node; every `Paused` node is set to `Meta` or `Running` according to
`IsMeta()` evaluated on the receiver — the resume target — not on the
iterated node; every subtree node is saved. -/
def resumeLoop (targetIsMeta : Bool) (w : PauseWorld) : List Nat → PauseWorld
  | [] => w
  | i :: rest =>
    let ct := w.cts i
    let ct1 := if ct.selfFrozen then { ct with selfFrozen := false } else ct
    let ct2 :=
      if ct1.state = .paused then
        { ct1 with state := if targetIsMeta then CtState.meta else CtState.running }
      else ct1
    resumeLoop targetIsMeta
      { cts := Function.update w.cts i ct2,
        kv := Function.update w.kv i (some ct2) } rest

/-- `TContainer::Resume` (container.cpp:2700-2729). -/
def resume (w : PauseWorld) (target : Nat) (subtree : List Nat) :
    Except TError PauseWorld :=
  let t := w.cts target
  if ¬t.hasFreezer then
    .error ⟨.NotSupported, "Cannot resume without freezer"⟩
  else if t.parentFrozen then
    .error ⟨.InvalidState, "Parent container is paused"⟩
  else if ¬t.selfFrozen then
    .error ⟨.InvalidState, "Container not paused"⟩
  else
    let w1 : PauseWorld :=
      { w with cts := Function.update w.cts target ({ t with selfFrozen := false }) }
    .ok (resumeLoop t.isMeta w1 subtree)

/-- Running container 1 (not meta) with a `Meta` child 2. -/
def exPauseWorld : PauseWorld :=
  { cts := fun i =>
      if i = 1 then ⟨.running, false, false, true, false⟩
      else if i = 2 then ⟨.meta, true, false, true, false⟩
      else ⟨.stopped, false, false, true, false⟩,
    kv := fun _ => none }

/-- The world after `Pause` on container 1 with subtree `[2, 1]`. -/
def exPausedWorld : PauseWorld :=
  exceptGetD (pause exPauseWorld 1 [2, 1]) exPauseWorld

/-- The world after the subsequent `Resume` on container 1. -/
def exResumedWorld : PauseWorld :=
  exceptGetD (resume exPausedWorld 1 [2, 1]) exPauseWorld

/-! ## SetProperty — TContainer::SetProperty (container.cpp:2884-2935)

Property storage is a map from property tags to values with a dirty bit per
tag.  `prop->CanSet()` together with `EnableControllers`, `prop->Get`, and
`prop->Set` live in the property registry (property.cpp, outside src/); their
outcomes enter as parameters.  A successful setter stores the value and marks
the property dirty; `ApplyDynamicProperties`' kernel writes are summarised by
their result.  The final `Save()` is modelled as always succeeding. -/

/-- The fields of one container read or written by `SetProperty`. -/
structure PropCt where
  isRoot : Bool
  values : Nat → String
  dirty : Nat → Bool
  /-- Modelled from the spec: `HasResources()` is declared in container.hpp,
  outside src/; it holds when the container has prepared (live) resources. -/
  hasResources : Bool

/-- `TContainer::SetProperty` (container.cpp:2884-2935).  Returns the updated
container and the error, if any. -/
def setProperty (ct : PropCt) (p : Nat) (v : String)
    (canSetErr getErr setErr applyErr : Option TError) : PropCt × Option TError :=
  if ct.isRoot then
    (ct, some ⟨.Permission, "System containers are read only"⟩)
  else
    match canSetErr with
    | some e => (ct, some e)
    | none =>
      match getErr with
      | some e => (ct, some e)
      | none =>
        let oldValue := ct.values p
        match setErr with
        | some e => (ct, some e)
        | none =>
          let ct1 : PropCt :=
            { ct with values := Function.update ct.values p v,
                      dirty := Function.update ct.dirty p true }
          if ct1.hasResources then
            match applyErr with
            | some e =>
              let ct2 : PropCt :=
                { ct1 with values := Function.update ct1.values p oldValue,
                           dirty := Function.update ct1.dirty p true }
              let ct3 : PropCt :=
                { ct2 with dirty := Function.update ct2.dirty p false }
              (ct3, some e)
            | none => (ct1, none)
          else (ct1, none)

/-- A non-root container with live resources. -/
def exPropCt : PropCt :=
  ⟨false, fun _ => "", fun _ => false, true⟩

/-- The root container. -/
def exRootPropCt : PropCt :=
  ⟨true, fun _ => "", fun _ => false, true⟩

/-! ## CPU guarantee overcommit — TContainer::DistributeCpus
(container.cpp:1336-1351)

During distribution each non-stopped, non-dead child of a parent is placed;
a child that received a CPU reservation (`CpuReserve.Weight() != 0`) is
logged, every other child adds `max(CpuGuarantee, CpuGuaranteeSum)` to
`vacantGuarantee`.  CPU bitmaps are finite sets of CPU indices
(`Weight` = cardinality, `IsEqual` = set equality). -/

/-- Modelled from the spec: `CPU_POWER_PER_SEC` (one second of CPU power) is
defined in cgroup.hpp, outside src/; the claims do not depend on its value. -/
def CPU_POWER_PER_SEC : Nat := 1000000000

/-- The per-child data consulted by the overcommit check. -/
structure CpuChild where
  state : CtState
  cpuReserveWeight : Nat
  cpuGuarantee : Nat
  cpuGuaranteeSum : Nat
  deriving Repr, DecidableEq

/-- A parent after child placement: its affinity, the vacant CPUs that
remain, and its children. -/
structure CpuParent where
  cpuAffinity : Finset Nat
  cpuVacant : Finset Nat
  children : List CpuChild
  deriving DecidableEq

/-- `vacantGuarantee` as accumulated in container.cpp:1281-1344: children in
state `Stopped`/`Dead` are skipped, children with a CPU reservation do not
contribute, every other child adds `max(CpuGuarantee, CpuGuaranteeSum)`. -/
def vacantGuarantee (children : List CpuChild) : Nat :=
  ((children.filter fun c =>
      decide (c.state ≠ .stopped) && decide (c.state ≠ .dead) &&
      decide (c.cpuReserveWeight = 0)).map
    (fun c => max c.cpuGuarantee c.cpuGuaranteeSum)).sum

/-- The overcommit block of `DistributeCpus` (container.cpp:1347-1351): on
overcommit, fail with `ResourceNotAvailable` when `CpuVacant` differs from
`CpuAffinity`, otherwise only log and continue. -/
def cpuGuaranteeCheck (parent : CpuParent) : Option TError :=
  if vacantGuarantee parent.children > parent.cpuVacant.card * CPU_POWER_PER_SEC then
    if ¬(parent.cpuVacant = parent.cpuAffinity) then
      some ⟨.ResourceNotAvailable, "Not enough cpus for cpu_guarantee"⟩
    else
      none
  else
    none

/-- The claim's reading: on overcommit the check fails exactly when the
parent's vacant set is already the whole affinity (nothing more to give). -/
def claimCpuCheckFails (parent : CpuParent) : Bool :=
  decide (vacantGuarantee parent.children >
    parent.cpuVacant.card * CPU_POWER_PER_SEC) &&
  decide (parent.cpuVacant = parent.cpuAffinity)

/-- An overcommitted parent whose vacant set equals its whole affinity. -/
def exCpuParent : CpuParent :=
  ⟨{0}, {0}, [⟨.running, 0, 2 * CPU_POWER_PER_SEC, 0⟩]⟩

/-! ## Memory guarantee — TContainer::CheckMemGuarantee (container.cpp:959-970)
and GetTotalMemGuarantee (972-992)

The container tree as consulted by the roll-up; `PrepareResources`
(container.cpp:2350-2394) runs `CheckMemGuarantee` during `Start` and a
failure aborts the start. -/

/-- A container with its state, `NewMemGuarantee`, and children. -/
inductive MemTree where
  | node (state : CtState) (newMemGuarantee : Nat) (children : List MemTree)

mutual
/-- `TContainer::GetTotalMemGuarantee` (container.cpp:972-992): a stopped
container contributes 0, every other container the maximum of its own
`NewMemGuarantee` and the sum of its children's totals. -/
def getTotalMemGuarantee : MemTree → Nat
  | .node st g cs => if st = .stopped then 0 else max g (totalOfChildren cs)

/-- The `for (auto &child : Children) sum += ...` loop. -/
def totalOfChildren : List MemTree → Nat
  | [] => 0
  | t :: ts => getTotalMemGuarantee t + totalOfChildren ts
end

/-- `TContainer::CheckMemGuarantee` (container.cpp:959-970): fail with
`ResourceNotAvailable` when the root's total plus the configured reserve
exceeds host memory. -/
def checkMemGuarantee (root : MemTree) (hostTotal reserve : Nat) : Option TError :=
  let usage := getTotalMemGuarantee root
  if usage + reserve > hostTotal then
    some ⟨.ResourceNotAvailable,
      "Memory guarantee overcommit by " ++ toString (usage + reserve - hostTotal)
        ++ " bytes"⟩
  else
    none

/-- `s` mentions the word "overcommit". -/
def mentionsOvercommit (s : String) : Prop :=
  ∃ a b, s = a ++ "overcommit" ++ b

/-! ## OOM during start — TContainer::StartTask (container.cpp:2115-2156)
and Start (container.cpp:2282-2348)

`TaskEnv.Start()` is the task launcher (task.cpp, outside the modelled
state); its outcome and the pending-OOM flag read by `RecvOomEvents()` enter
as parameters. -/

/-- The error produced by `StartTask` (container.cpp:2149-2155): a launcher
failure is promoted to `ResourceNotAvailable("OOM at container ... start: ...")`
when an OOM event has been received. -/
def startTaskResult (name : String) (launcherResult : Option TError)
    (oomEventPending : Bool) : Option TError :=
  match launcherResult with
  | none => none
  | some e =>
    if oomEventPending then
      some ⟨.ResourceNotAvailable,
        "OOM at container " ++ name ++ " start: " ++ e.text⟩
    else
      some e

/-- The fields of the starting container touched by the tail of `Start`. -/
structure StartCt where
  state : CtState
  isMeta : Bool
  deriving Repr, DecidableEq

/-- The tail of `TContainer::Start` (container.cpp:2316-2347): on task error,
`Stopping` → terminate → free resources → `Stopped` and the error is
returned unchanged; on success the container becomes `Meta` or `Running`. -/
def startAfterTask (ct : StartCt) (taskErr : Option TError) :
    StartCt × Option TError :=
  match taskErr with
  | some e => ({ ct with state := .stopped }, some e)
  | none => ({ ct with state := if ct.isMeta then .meta else .running }, none)

/-! ## Theorems and supporting lemmas -/

/-- C1 counterexample: the target container is completely idle and its only
ancestor holds a plain read lock (`Locked = 1`); the claim's write-lock
condition is satisfied, yet `TContainer::Lock` reports busy. -/
theorem lock_write_ancestor_read_cex :
    claimWriteGranted ⟨0, false, 0, 0⟩ [⟨1, false, 0, 0⟩] = true ∧
    lockGranted false ⟨0, false, 0, 0⟩ [⟨1, false, 0, 0⟩] = false := by
  decide

/-- C1 (amended): a read lock is granted exactly when X is not write-locked,
has no pending writer and no subtree writer, and no ancestor has a pending
writer or is write-locked; a write lock is granted exactly when X is not
locked, has no subtree reader or writer, and no ancestor has a pending writer
or is locked in any mode (a read lock on an ancestor does block). -/
theorem lock_grant_conditions (x : LockSt) (ancs : List LockSt) :
    (lockGranted true x ancs = true ↔
      (0 ≤ x.locked ∧ x.pendingWrite = false ∧ x.subtreeWrite = 0 ∧
        ∀ a ∈ ancs, a.pendingWrite = false ∧ 0 ≤ a.locked)) ∧
    (lockGranted false x ancs = true ↔
      (x.locked = 0 ∧ x.subtreeRead = 0 ∧ x.subtreeWrite = 0 ∧
        ∀ a ∈ ancs, a.pendingWrite = false ∧ a.locked = 0)) := by
  constructor <;>
  · simp [lockGranted, lockBusy, not_lt]
    tauto

lemma isNameChar_ne_slash {c : Char} (h : isNameChar c = true) : c ≠ '/' := by
  rintro rfl
  exact absurd h (by decide)

lemma isNameChar_ne_nul {c : Char} (h : isNameChar c = true) : c ≠ '\x00' := by
  rintro rfl
  exact absurd h (by decide)

lemma splitComps_ne_nil (l : List Char) : splitComps l ≠ [] := by
  cases l with
  | nil => simp [splitComps]
  | cons c rest =>
    by_cases h : c = '/' <;> simp [splitComps, h]

lemma splitComps_no_slash {l : List Char} (h : ∀ x ∈ l, x ≠ '/') :
    splitComps l = [l] := by
  induction l with
  | nil => rfl
  | cons c rest ih =>
    have hc : c ≠ '/' := h c (by simp)
    have hr : splitComps rest = [rest] := ih (fun x hx => h x (by simp [hx]))
    simp [splitComps, hc, hr]

lemma splitComps_append_slash {acc : List Char} (t : List Char)
    (h : ∀ x ∈ acc, x ≠ '/') :
    splitComps (acc ++ '/' :: t) = acc :: splitComps t := by
  induction acc with
  | nil => simp [splitComps]
  | cons a acc ih =>
    have ha : a ≠ '/' := h a (by simp)
    have hr := ih (fun x hx => h x (by simp [hx]))
    simp [splitComps, ha, hr]

lemma checkComponent_none_iff {comp : List Char} (h : comp.all isNameChar = true) :
    (checkComponent comp = none ↔ goodComp comp = true) := by
  unfold checkComponent goodComp
  split_ifs with h1 h2 h3 h4 <;> simp_all

lemma checkComponent_kind {comp : List Char} {e : TError}
    (h : checkComponent comp = some e) : e.kind = .InvalidValue := by
  unfold checkComponent at h
  split_ifs at h <;> exact (Option.some.inj h).symm ▸ rfl

lemma splitComps_all_chars {l : List Char}
    (h : (splitComps l).all (fun comp => comp.all isNameChar) = true) :
    ∀ x ∈ l, x = '/' ∨ isNameChar x = true := by
  induction l with
  | nil => simp
  | cons c rest ih =>
    intro x hx
    by_cases hc : c = '/'
    · subst hc
      rw [show splitComps ('/' :: rest) = [] :: splitComps rest from by
            simp [splitComps]] at h
      simp only [List.all_cons, List.all_nil, Bool.true_and] at h
      rcases List.mem_cons.mp hx with rfl | hx'
      · exact Or.inl rfl
      · exact ih h x hx'
    · obtain ⟨h0, ht, hr⟩ : ∃ h0 ht, splitComps rest = h0 :: ht := by
        cases hrest : splitComps rest with
        | nil => exact absurd hrest (splitComps_ne_nil rest)
        | cons h0 ht => exact ⟨h0, ht, rfl⟩
      simp only [splitComps, if_neg hc, hr, List.headD_cons, List.tail_cons,
        List.all_cons, Bool.and_eq_true] at h
      obtain ⟨⟨hcn, h0n⟩, htn⟩ := h
      rcases List.mem_cons.mp hx with rfl | hx'
      · exact Or.inr hcn
      · exact ih (by simp [hr, List.all_cons, h0n, htn]) x hx'

lemma validLoop_sep {c : Char} (hc : c = '/' ∨ c = '\x00') (rest acc : List Char) :
    validLoop (c :: rest) acc =
      match checkComponent acc with
      | some e => some e
      | none => validLoop rest [] := by
  simp only [validLoop]
  rw [if_pos hc]

lemma validLoop_char {c : Char} (hc : ¬(c = '/' ∨ c = '\x00'))
    (hn : isNameChar c = true) (rest acc : List Char) :
    validLoop (c :: rest) acc = validLoop rest (acc ++ [c]) := by
  simp only [validLoop]
  rw [if_neg hc, if_pos hn]

lemma validLoop_bad {c : Char} (hc : ¬(c = '/' ∨ c = '\x00'))
    (hn : ¬ isNameChar c = true) (rest acc : List Char) :
    validLoop (c :: rest) acc = some ⟨.InvalidValue, "forbidden character"⟩ := by
  simp only [validLoop]
  rw [if_neg hc, if_neg hn]

lemma validLoop_kind : ∀ (cs acc : List Char) {e : TError},
    validLoop cs acc = some e → e.kind = .InvalidValue := by
  intro cs
  induction cs with
  | nil => intro acc e h; exact absurd h (by simp [validLoop])
  | cons c rest ih =>
    intro acc e h
    by_cases hc : c = '/' ∨ c = '\x00'
    · rw [validLoop_sep hc] at h
      cases hcc : checkComponent acc with
      | some e' =>
        rw [hcc] at h
        exact (Option.some.inj h) ▸ checkComponent_kind hcc
      | none =>
        rw [hcc] at h
        exact ih [] h
    · by_cases hn : isNameChar c = true
      · rw [validLoop_char hc hn] at h
        exact ih (acc ++ [c]) h
      · rw [validLoop_bad hc hn] at h
        exact (Option.some.inj h).symm ▸ rfl

lemma all_isNameChar_no_slash {acc : List Char} (hacc : acc.all isNameChar = true) :
    ∀ x ∈ acc, x ≠ '/' :=
  fun x hx => isNameChar_ne_slash (List.all_eq_true.mp hacc x hx)

lemma validLoop_none_iff (cs : List Char) : ∀ acc : List Char,
    acc.all isNameChar = true →
    (validLoop (cs ++ ['\x00']) acc = none ↔
     (splitComps (acc ++ mapNulToSlash cs)).all goodComp = true) := by
  induction cs with
  | nil =>
    intro acc hacc
    rw [List.nil_append, validLoop_sep (Or.inr rfl),
        show mapNulToSlash [] = [] from rfl, List.append_nil,
        splitComps_no_slash (all_isNameChar_no_slash hacc)]
    simp only [List.all_cons, List.all_nil, Bool.and_true]
    cases hcc : checkComponent acc with
    | some e =>
      simp only []
      constructor
      · intro h; exact absurd h (by simp)
      · intro h
        exact absurd ((checkComponent_none_iff hacc).mpr h) (by simp [hcc])
    | none =>
      exact iff_of_true (by simp [validLoop]) ((checkComponent_none_iff hacc).mp hcc)
  | cons c rest ih =>
    intro acc hacc
    rw [List.cons_append]
    by_cases hc : c = '/' ∨ c = '\x00'
    · have hmap : mapNulToSlash (c :: rest) = '/' :: mapNulToSlash rest := by
        rcases hc with rfl | rfl <;> simp [mapNulToSlash]
      rw [validLoop_sep hc, hmap,
          splitComps_append_slash (mapNulToSlash rest) (all_isNameChar_no_slash hacc),
          List.all_cons]
      cases hcc : checkComponent acc with
      | some e =>
        have : goodComp acc = false := by
          cases hg : goodComp acc
          · rfl
          · exact absurd ((checkComponent_none_iff hacc).mpr hg) (by simp [hcc])
        simp [this]
      | none =>
        have hgood : goodComp acc = true := (checkComponent_none_iff hacc).mp hcc
        rw [hgood]
        simpa using ih [] rfl
    · have hcnul : c ≠ '\x00' := fun h => hc (Or.inr h)
      have hmap : mapNulToSlash (c :: rest) = c :: mapNulToSlash rest := by
        simp [mapNulToSlash, hcnul]
      by_cases hn : isNameChar c = true
      · rw [validLoop_char hc hn, hmap,
            show acc ++ c :: mapNulToSlash rest = (acc ++ [c]) ++ mapNulToSlash rest by
              simp]
        exact ih (acc ++ [c]) (by simp [List.all_append, hacc, hn])
      · rw [validLoop_bad hc hn, hmap]
        constructor
        · intro h; exact absurd h (by simp)
        · intro h
          have hchars : (splitComps (acc ++ c :: mapNulToSlash rest)).all
              (fun comp => comp.all isNameChar) = true := by
            rw [List.all_eq_true] at h ⊢
            intro comp hcomp
            have := h comp hcomp
            unfold goodComp at this
            simp only [Bool.and_eq_true] at this
            exact this.1.1.1.1
          have := splitComps_all_chars hchars c (by simp)
          rcases this with h1 | h1
          · exact absurd (Or.inl h1) hc
          · exact absurd h1 hn

/-- C6 counterexample: the byte string `"a\x00b"` (an `std::string` with an
embedded NUL) is not a `'/'`-separated path of charset components, yet
`TContainer::ValidName` accepts it — the scanning loop treats the embedded NUL
exactly like a separator. -/
theorem validName_nul_byte_cex :
    validName ['a', '\x00', 'b'] false = none ∧
    claimValidName ['a', '\x00', 'b'] false = false := by
  decide

/-- C6 (amended): name validation accepts exactly the reserved root name `/`
together with every string that, after treating each NUL byte as a `'/'`
separator, is a `'/'`-separated path of non-empty components from the charset
`[A-Za-z0-9_\-@:.]`, each component at most 128 bytes and never `.` or `self`,
with total length at most 200 bytes (220 for a superuser); every other string
is rejected with `InvalidValue`. -/
theorem validName_characterization (name : List Char) (superuser : Bool) :
    (validName name superuser = none ↔ amendedValidName name superuser = true) ∧
    ((validName name superuser).all fun e => e.kind == EError.InvalidValue) = true := by
  have hpm1 : 1 ≤ pathMaxFor superuser := by
    cases superuser <;> simp [pathMaxFor, CONTAINER_PATH_MAX,
      CONTAINER_PATH_MAX_FOR_SUPERUSER]
  constructor
  · unfold validName amendedValidName
    by_cases h0 : name.length = 0
    · rw [if_pos h0]
      have hname : name = [] := List.length_eq_zero.mp h0
      subst hname
      simp [ROOT_CONTAINER, mapNulToSlash, splitComps, goodComp]
    · rw [if_neg h0]
      by_cases hlong : pathMaxFor superuser < name.length
      · rw [if_pos hlong]
        have hroot : name ≠ ROOT_CONTAINER := by
          intro h
          rw [h] at hlong
          simp [ROOT_CONTAINER] at hlong
          omega
        exact iff_of_false (by simp) (by simp [hroot]; omega)
      · rw [if_neg hlong]
        by_cases hhead : name.head? = some '/'
        · rw [if_pos hhead]
          by_cases hr : name = ROOT_CONTAINER
          · rw [if_pos hr]
            simp [hr]
          · rw [if_neg hr]
            obtain ⟨t, ht⟩ : ∃ t, name = '/' :: t := by
              cases name with
              | nil => exact absurd rfl h0
              | cons a t =>
                rw [List.head?_cons, Option.some.injEq] at hhead
                exact ⟨t, by rw [hhead]⟩
            subst ht
            have hmap : mapNulToSlash ('/' :: t) = '/' :: mapNulToSlash t := by
              simp [mapNulToSlash]
            refine iff_of_false (by simp) ?_
            simp [hr, hmap, splitComps, goodComp]
        · rw [if_neg hhead]
          have hroot : name ≠ ROOT_CONTAINER := by
            intro h
            rw [h] at hhead
            exact hhead rfl
          have hlen : name.length ≤ pathMaxFor superuser := by omega
          rw [validLoop_none_iff name [] rfl]
          simp [hroot, hlen]
  · cases h : validName name superuser with
    | none => rfl
    | some e =>
      have hk : e.kind = .InvalidValue := by
        unfold validName at h
        split_ifs at h
        · exact (Option.some.inj h).symm ▸ rfl
        · exact (Option.some.inj h).symm ▸ rfl
        · exact (Option.some.inj h).symm ▸ rfl
        · exact validLoop_kind _ _ h
      show (e.kind == EError.InvalidValue) = true
      simp [hk]

lemma writeState_len (f : CtForest) (i : Nat) (next : CtState) :
    (writeState f i next).len = f.len := rfl

lemma writeState_node_parent (f : CtForest) (i : Nat) (next : CtState) (j : Nat) :
    ((writeState f i next).node j).parent = (f.node j).parent := by
  by_cases h : j = i <;> simp [writeState, Function.update_apply, h]

lemma writeState_node_state (f : CtForest) (i : Nat) (next : CtState) (j : Nat) :
    ((writeState f i next).node j).state = if j = i then next else (f.node j).state := by
  by_cases h : j = i <;> simp [writeState, Function.update_apply, h]

lemma writeState_node_starting (f : CtForest) (i : Nat) (next : CtState) (j : Nat) :
    ((writeState f i next).node j).startingChildren = (f.node j).startingChildren := by
  by_cases h : j = i <;> simp [writeState, Function.update_apply, h]

lemma writeState_node_running (f : CtForest) (i : Nat) (next : CtState) (j : Nat) :
    ((writeState f i next).node j).runningChildren = (f.node j).runningChildren := by
  by_cases h : j = i <;> simp [writeState, Function.update_apply, h]

lemma bumpStarting_len : ∀ (chain : List Nat) (d : Int) (f : CtForest),
    (bumpStarting chain d f).len = f.len := by
  intro chain
  induction chain with
  | nil => intro d f; rfl
  | cons p rest ih => intro d f; exact ih d _

lemma bumpRunning_len : ∀ (chain : List Nat) (d : Int) (f : CtForest),
    (bumpRunning chain d f).len = f.len := by
  intro chain
  induction chain with
  | nil => intro d f; rfl
  | cons p rest ih => intro d f; exact ih d _

lemma bumpStarting_node : ∀ (chain : List Nat) (d : Int) (f : CtForest) (q : Nat),
    ((bumpStarting chain d f).node q).parent = (f.node q).parent ∧
    ((bumpStarting chain d f).node q).state = (f.node q).state ∧
    ((bumpStarting chain d f).node q).runningChildren = (f.node q).runningChildren ∧
    ((bumpStarting chain d f).node q).startingChildren =
      (f.node q).startingChildren + (chain.count q : Int) * d := by
  intro chain
  induction chain with
  | nil =>
    intro d f q
    exact ⟨rfl, rfl, rfl, by simp [bumpStarting]⟩
  | cons p rest ih =>
    intro d f q
    have hstep : bumpStarting (p :: rest) d f = bumpStarting rest d
        ({ f with
           node := Function.update f.node p
             ({ f.node p with startingChildren := (f.node p).startingChildren + d }) }) := rfl
    rw [hstep]
    obtain ⟨h1, h2, h3, h4⟩ := ih d ({ f with
        node := Function.update f.node p
          ({ f.node p with startingChildren := (f.node p).startingChildren + d }) }) q
    refine ⟨?_, ?_, ?_, ?_⟩
    · rw [h1]; by_cases hq : q = p <;> simp [Function.update_apply, hq]
    · rw [h2]; by_cases hq : q = p <;> simp [Function.update_apply, hq]
    · rw [h3]; by_cases hq : q = p <;> simp [Function.update_apply, hq]
    · rw [h4]
      by_cases hq : q = p
      · subst hq
        simp only [Function.update_apply, if_pos rfl, List.count_cons, beq_self_eq_true,
          if_true]
        push_cast
        ring
      · have : (p == q) = false := by simp [Ne.symm hq]
        simp [Function.update_apply, hq, List.count_cons, this]

lemma bumpRunning_node : ∀ (chain : List Nat) (d : Int) (f : CtForest) (q : Nat),
    ((bumpRunning chain d f).node q).parent = (f.node q).parent ∧
    ((bumpRunning chain d f).node q).state = (f.node q).state ∧
    ((bumpRunning chain d f).node q).startingChildren = (f.node q).startingChildren ∧
    ((bumpRunning chain d f).node q).runningChildren =
      (f.node q).runningChildren + (chain.count q : Int) * d := by
  intro chain
  induction chain with
  | nil =>
    intro d f q
    exact ⟨rfl, rfl, rfl, by simp [bumpRunning]⟩
  | cons p rest ih =>
    intro d f q
    have hstep : bumpRunning (p :: rest) d f = bumpRunning rest d
        ({ f with
           node := Function.update f.node p
             ({ f.node p with runningChildren := (f.node p).runningChildren + d }) }) := rfl
    rw [hstep]
    obtain ⟨h1, h2, h3, h4⟩ := ih d ({ f with
        node := Function.update f.node p
          ({ f.node p with runningChildren := (f.node p).runningChildren + d }) }) q
    refine ⟨?_, ?_, ?_, ?_⟩
    · rw [h1]; by_cases hq : q = p <;> simp [Function.update_apply, hq]
    · rw [h2]; by_cases hq : q = p <;> simp [Function.update_apply, hq]
    · rw [h3]; by_cases hq : q = p <;> simp [Function.update_apply, hq]
    · rw [h4]
      by_cases hq : q = p
      · subst hq
        simp only [Function.update_apply, if_pos rfl, List.count_cons, beq_self_eq_true,
          if_true]
        push_cast
        ring
      · have : (p == q) = false := by simp [Ne.symm hq]
        simp [Function.update_apply, hq, List.count_cons, this]

lemma parentOf_congr {g f : CtForest} (hlen : g.len = f.len)
    (hpar : ∀ j, (g.node j).parent = (f.node j).parent) (j : Nat) :
    parentOf g j = parentOf f j := by
  unfold parentOf
  rw [hlen, hpar]

lemma chainFrom_congr {g f : CtForest} (h : ∀ j, parentOf g j = parentOf f j) :
    ∀ (fuel i : Nat), chainFrom g fuel i = chainFrom f fuel i := by
  intro fuel
  induction fuel with
  | zero => intro i; rfl
  | succ n ih =>
    intro i
    unfold chainFrom
    rw [h i]
    cases parentOf f i with
    | none => rfl
    | some p =>
      show p :: chainFrom g n p = p :: chainFrom f n p
      rw [ih p]

lemma ancestors_congr {g f : CtForest} (hlen : g.len = f.len)
    (hpar : ∀ j, (g.node j).parent = (f.node j).parent) (i : Nat) :
    ancestors g i = ancestors f i := by
  unfold ancestors
  rw [hlen, chainFrom_congr (parentOf_congr hlen hpar)]

lemma WFb_parent {f : CtForest} (hwf : WFb f = true) {i p : Nat}
    (h : parentOf f i = some p) : p < i := by
  unfold parentOf at h
  by_cases hi : i < f.len
  · rw [if_pos hi] at h
    unfold WFb at hwf
    have hall := List.all_eq_true.mp hwf i (List.mem_range.mpr hi)
    rw [h] at hall
    exact of_decide_eq_true hall
  · rw [if_neg hi] at h
    exact absurd h (by simp)

lemma chainFrom_lt {f : CtForest} (hwf : WFb f = true) :
    ∀ (fuel i q : Nat), q ∈ chainFrom f fuel i → q < i := by
  intro fuel
  induction fuel with
  | zero => intro i q h; exact absurd h (by simp [chainFrom])
  | succ n ih =>
    intro i q h
    unfold chainFrom at h
    cases hp : parentOf f i with
    | none => rw [hp] at h; exact absurd h (by simp)
    | some p =>
      rw [hp] at h
      rcases List.mem_cons.mp h with rfl | h'
      · exact WFb_parent hwf hp
      · exact lt_trans (ih p q h') (WFb_parent hwf hp)

lemma chainFrom_nodup {f : CtForest} (hwf : WFb f = true) :
    ∀ (fuel i : Nat), (chainFrom f fuel i).Nodup := by
  intro fuel
  induction fuel with
  | zero => intro i; simp [chainFrom]
  | succ n ih =>
    intro i
    unfold chainFrom
    cases hp : parentOf f i with
    | none => simp
    | some p =>
      rw [List.nodup_cons]
      exact ⟨fun hmem => absurd (chainFrom_lt hwf n p p hmem) (lt_irrefl p), ih p⟩

lemma ancestors_count {f : CtForest} (hwf : WFb f = true) (i q : Nat) :
    (ancestors f i).count q = if q ∈ ancestors f i then 1 else 0 := by
  by_cases h : q ∈ ancestors f i
  · rw [if_pos h]
    exact List.count_eq_one_of_mem (chainFrom_nodup hwf f.len i) h
  · rw [if_neg h]
    exact List.count_eq_zero.mpr h

lemma bumpStarting_node_parent (chain : List Nat) (d : Int) (f : CtForest) (q : Nat) :
    ((bumpStarting chain d f).node q).parent = (f.node q).parent :=
  (bumpStarting_node chain d f q).1

lemma bumpStarting_node_state (chain : List Nat) (d : Int) (f : CtForest) (q : Nat) :
    ((bumpStarting chain d f).node q).state = (f.node q).state :=
  (bumpStarting_node chain d f q).2.1

lemma bumpStarting_node_running (chain : List Nat) (d : Int) (f : CtForest) (q : Nat) :
    ((bumpStarting chain d f).node q).runningChildren = (f.node q).runningChildren :=
  (bumpStarting_node chain d f q).2.2.1

lemma bumpStarting_node_starting (chain : List Nat) (d : Int) (f : CtForest) (q : Nat) :
    ((bumpStarting chain d f).node q).startingChildren =
      (f.node q).startingChildren + (chain.count q : Int) * d :=
  (bumpStarting_node chain d f q).2.2.2

lemma bumpRunning_node_parent (chain : List Nat) (d : Int) (f : CtForest) (q : Nat) :
    ((bumpRunning chain d f).node q).parent = (f.node q).parent :=
  (bumpRunning_node chain d f q).1

lemma bumpRunning_node_state (chain : List Nat) (d : Int) (f : CtForest) (q : Nat) :
    ((bumpRunning chain d f).node q).state = (f.node q).state :=
  (bumpRunning_node chain d f q).2.1

lemma bumpRunning_node_starting (chain : List Nat) (d : Int) (f : CtForest) (q : Nat) :
    ((bumpRunning chain d f).node q).startingChildren = (f.node q).startingChildren :=
  (bumpRunning_node chain d f q).2.2.1

lemma bumpRunning_node_running (chain : List Nat) (d : Int) (f : CtForest) (q : Nat) :
    ((bumpRunning chain d f).node q).runningChildren =
      (f.node q).runningChildren + (chain.count q : Int) * d :=
  (bumpRunning_node chain d f q).2.2.2

lemma writeState_ancestors (f : CtForest) (i : Nat) (next : CtState) (j : Nat) :
    ancestors (writeState f i next) j = ancestors f j :=
  ancestors_congr (writeState_len f i next) (writeState_node_parent f i next) j

lemma bumpStarting_ancestors (chain : List Nat) (d : Int) (f : CtForest) (j : Nat) :
    ancestors (bumpStarting chain d f) j = ancestors f j :=
  ancestors_congr (bumpStarting_len chain d f) (bumpStarting_node_parent chain d f) j

lemma bumpRunning_ancestors (chain : List Nat) (d : Int) (f : CtForest) (j : Nat) :
    ancestors (bumpRunning chain d f) j = ancestors f j :=
  ancestors_congr (bumpRunning_len chain d f) (bumpRunning_node_parent chain d f) j

lemma setState_len (f : CtForest) (i : Nat) (next : CtState) :
    (setState f i next).len = f.len := by
  by_cases hi : i < f.len
  · by_cases hne : (f.node i).state = next
    · simp [setState, hi, hne]
    · by_cases hgs : (f.node i).state = .starting ∨ next = .starting <;>
      by_cases hgr : (f.node i).state = .running ∨ next = .running <;>
        simp [setState, hi, hne, hgs, hgr, bumpRunning_len, bumpStarting_len,
          writeState_len]
  · simp [setState, hi]

lemma setState_node_parent (f : CtForest) (i : Nat) (next : CtState) (j : Nat) :
    ((setState f i next).node j).parent = (f.node j).parent := by
  by_cases hi : i < f.len
  · by_cases hne : (f.node i).state = next
    · simp [setState, hi, hne]
    · by_cases hgs : (f.node i).state = .starting ∨ next = .starting <;>
      by_cases hgr : (f.node i).state = .running ∨ next = .running <;>
        simp [setState, hi, hne, hgs, hgr, bumpRunning_node_parent,
          bumpStarting_node_parent, writeState_node_parent]
  · simp [setState, hi]

lemma setState_ancestors (f : CtForest) (i : Nat) (next : CtState) (j : Nat) :
    ancestors (setState f i next) j = ancestors f j :=
  ancestors_congr (setState_len f i next) (setState_node_parent f i next) j

lemma setState_node_state {f : CtForest} {i : Nat} {next : CtState}
    (hi : i < f.len) (hne : ¬(f.node i).state = next) (j : Nat) :
    ((setState f i next).node j).state = if j = i then next else (f.node j).state := by
  by_cases hgs : (f.node i).state = .starting ∨ next = .starting <;>
  by_cases hgr : (f.node i).state = .running ∨ next = .running <;>
  by_cases hj : j = i <;>
    simp [setState, hi, hne, hgs, hgr, hj, bumpRunning_node_state,
      bumpStarting_node_state, writeState_node_state]

lemma setState_node_starting {f : CtForest} {i : Nat} {next : CtState}
    (hwf : WFb f = true) (hi : i < f.len) (hne : ¬(f.node i).state = next) (p : Nat) :
    ((setState f i next).node p).startingChildren =
      (f.node p).startingChildren +
        (if p ∈ ancestors f i then
          (if next = .starting then (1:Int) else 0) -
          (if (f.node i).state = .starting then 1 else 0)
        else 0) := by
  by_cases hgs : (f.node i).state = .starting ∨ next = .starting
  · by_cases hgr : (f.node i).state = .running ∨ next = .running <;>
    · simp only [setState, if_pos hi, if_neg hne, if_pos hgs]
      simp only [hgr, if_true, if_false, bumpRunning_node_starting,
        bumpStarting_ancestors, writeState_ancestors, bumpStarting_node_starting,
        writeState_node_starting, ancestors_count hwf]
      by_cases hmem : p ∈ ancestors f i <;>
        by_cases hns : next = CtState.starting
      · have hps : ¬(f.node i).state = CtState.starting := fun h => hne (by rw [h, hns])
        simp [hmem, hns, hps]
      · have hps : (f.node i).state = CtState.starting := by
          rcases hgs with h | h
          · exact h
          · exact absurd h hns
        simp [hmem, hns, hps]
      · simp [hmem, hns]
      · simp [hmem, hns]
  · by_cases hgr : (f.node i).state = .running ∨ next = .running <;>
    · simp only [setState, if_pos hi, if_neg hne, if_neg hgs]
      rw [not_or] at hgs
      simp only [hgr, if_true, if_false, bumpRunning_node_starting,
        writeState_node_starting]
      simp [hgs.1, hgs.2]

lemma setState_node_running {f : CtForest} {i : Nat} {next : CtState}
    (hwf : WFb f = true) (hi : i < f.len) (hne : ¬(f.node i).state = next) (p : Nat) :
    ((setState f i next).node p).runningChildren =
      (f.node p).runningChildren +
        (if p ∈ ancestors f i then
          (if next = .running then (1:Int) else 0) -
          (if (f.node i).state = .running then 1 else 0)
        else 0) := by
  by_cases hgr : (f.node i).state = .running ∨ next = .running
  · by_cases hgs : (f.node i).state = .starting ∨ next = .starting <;>
    · simp only [setState, if_pos hi, if_neg hne, if_pos hgr]
      simp only [hgs, if_true, if_false, bumpRunning_node_running,
        bumpRunning_ancestors, bumpStarting_ancestors, writeState_ancestors,
        bumpStarting_node_running, writeState_node_running, ancestors_count hwf]
      by_cases hmem : p ∈ ancestors f i <;>
        by_cases hnr : next = CtState.running
      · have hpr : ¬(f.node i).state = CtState.running := fun h => hne (by rw [h, hnr])
        simp [hmem, hnr, hpr]
      · have hpr : (f.node i).state = CtState.running := by
          rcases hgr with h | h
          · exact h
          · exact absurd h hnr
        simp [hmem, hnr, hpr]
      · simp [hmem, hnr]
      · simp [hmem, hnr]
  · by_cases hgs : (f.node i).state = .starting ∨ next = .starting <;>
    · simp only [setState, if_pos hi, if_neg hne, if_neg hgr]
      rw [not_or] at hgr
      simp only [hgs, if_true, if_false, bumpStarting_node_running,
        writeState_node_running]
      simp [hgr.1, hgr.2]

lemma sum_int_single_diff {n : Nat} (F G : Nat → Int) {i : Nat} (hi : i < n)
    (h : ∀ j, j ≠ i → F j = G j) :
    ∑ j ∈ Finset.range n, F j = (∑ j ∈ Finset.range n, G j) + (F i - G i) := by
  have hmem : i ∈ Finset.range n := Finset.mem_range.mpr hi
  rw [← Finset.add_sum_erase _ F hmem, ← Finset.add_sum_erase _ G hmem,
      Finset.sum_congr rfl (fun j hj => h j (Finset.ne_of_mem_erase hj))]
  ring

lemma descCount_setState {f : CtForest} {i : Nat} {next : CtState}
    (hi : i < f.len) (hne : ¬(f.node i).state = next) (p : Nat) (s : CtState) :
    descCount (setState f i next) p s =
      descCount f p s +
        (if p ∈ ancestors f i then
          (if next = s then (1:Int) else 0) - (if (f.node i).state = s then 1 else 0)
        else 0) := by
  unfold descCount
  rw [setState_len, Finset.card_filter, Finset.card_filter]
  push_cast
  have key : ∀ j, j ≠ i →
      (if p ∈ ancestors (setState f i next) j ∧ ((setState f i next).node j).state = s
       then (1:Int) else 0)
      = (if p ∈ ancestors f j ∧ (f.node j).state = s then (1:Int) else 0) := by
    intro j hj
    rw [setState_ancestors, setState_node_state hi hne j, if_neg hj]
  have hsum := sum_int_single_diff
    (fun j => if p ∈ ancestors (setState f i next) j ∧
                 ((setState f i next).node j).state = s then (1:Int) else 0)
    (fun j => if p ∈ ancestors f j ∧ (f.node j).state = s then (1:Int) else 0)
    hi key
  dsimp only at hsum
  rw [hsum, setState_ancestors, setState_node_state hi hne i, if_pos rfl]
  have hdiff :
      ((if p ∈ ancestors f i ∧ next = s then (1:Int) else 0) -
        (if p ∈ ancestors f i ∧ (f.node i).state = s then (1:Int) else 0))
      = (if p ∈ ancestors f i then
          (if next = s then (1:Int) else 0) - (if (f.node i).state = s then 1 else 0)
        else 0) := by
    by_cases hmem : p ∈ ancestors f i <;>
      by_cases h1 : next = s <;>
        by_cases h2 : (f.node i).state = s <;>
          simp [hmem, h1, h2]
  rw [hdiff]

/-- C2 (amended): after any state transition, for every node of the forest —
in particular every ancestor of the transitioning container — the
`StartingChildren` / `RunningChildren` counter equals the count of its
descendants (not only direct children) in state `Starting` / `Running`. -/
theorem setState_counter_invariant (f : CtForest) (i : Nat) (next : CtState)
    (hwf : WFb f = true) (hinv : invB f = true) :
    invB (setState f i next) = true := by
  by_cases hi : i < f.len
  · by_cases hne : (f.node i).state = next
    · have h : setState f i next = f := by simp [setState, hi, hne]
      rw [h]
      exact hinv
    · unfold invB at hinv ⊢
      rw [List.all_eq_true] at hinv ⊢
      intro p hp
      rw [setState_len] at hp
      have h1 := hinv p hp
      simp only [Bool.and_eq_true, decide_eq_true_eq] at h1 ⊢
      constructor
      · rw [setState_node_starting hwf hi hne p,
            descCount_setState hi hne p .starting, h1.1]
      · rw [setState_node_running hwf hi hne p,
            descCount_setState hi hne p .running, h1.2]
  · have h : setState f i next = f := by simp [setState, hi]
    rw [h]
    exact hinv

/-- C2 counterexample: starting the grandchild (node 2) bumps the root's
`StartingChildren` to 1, but the root has no direct child in state
`Starting` — the counters track descendants, not children. -/
theorem setState_children_cex :
    WFb exForest = true ∧ invB exForest = true ∧
    ((setState exForest 2 .starting).node 0).startingChildren = 1 ∧
    childCount (setState exForest 2 .starting) 0 .starting = 0 := by
  decide

/-- C2 witness: `setState_counter_invariant` applied to a concrete forest
and transition. -/
theorem setState_counter_invariant_witness :
    WFb exForest = true ∧ invB exForest = true ∧
    invB (setState exForest 2 .starting) = true :=
  ⟨by decide, by decide,
    setState_counter_invariant exForest 2 .starting (by decide) (by decide)⟩

/-- C3: stopping container 1 (child 2 running) performs every per-node step on
node 2 — tasks forgotten, exit/death/OOM cleared, resources freed, state
`Stopped` — but `Save()` is called on the stop target both times: the store
receives two writes for id 1 and none for id 2, so node 2's record is never
persisted. -/
theorem stop_saves_target_not_each_node :
    exStopResult.savedIds = [1, 1] ∧
    (exStopResult.cts 2).state = .stopped ∧
    (exStopResult.cts 2).taskPid = 0 ∧
    (exStopResult.cts 2).waitTaskPid = 0 ∧
    (exStopResult.cts 2).oomKilled = false ∧
    (exStopResult.cts 2).resourcesFreed = true ∧
    exStopResult.kv 2 = none ∧
    exStopResult.kv 1 = some (exStopResult.cts 1) := by
  decide

/-- C4: the `Meta` child 2 is `Paused` by `Pause` on container 1, but
`Resume` sets it to `Running` — `IsMeta()` is evaluated on the resume target
(not meta), so the child's prior state `Meta` is not restored. -/
theorem resume_does_not_restore_meta_child :
    (exPauseWorld.cts 2).state = .meta ∧
    (exPausedWorld.cts 2).state = .paused ∧
    (exResumedWorld.cts 1).state = .running ∧
    (exResumedWorld.cts 2).state = .running := by
  decide

/-- C5: when the container has live resources and pushing the changed property
to the kernel fails, `SetProperty` restores the previous value (so the whole
value map is unchanged), clears that property's dirty bit, and returns the
apply error. -/
theorem setProperty_apply_error_rollback (ct : PropCt) (p : Nat) (v : String)
    (e : TError) (hroot : ct.isRoot = false) (hres : ct.hasResources = true) :
    setProperty ct p v none none none (some e) =
      ({ ct with dirty := Function.update ct.dirty p false }, some e) := by
  simp [setProperty, hroot, hres, Function.update_idem, Function.update_eq_self]

/-- C5 witness: `setProperty_apply_error_rollback` at a concrete container. -/
theorem setProperty_apply_error_rollback_witness :
    setProperty exPropCt 0 "268435456" none none none
        (some ⟨.InvalidValue, "memory limit too low"⟩) =
      ({ exPropCt with dirty := Function.update exPropCt.dirty 0 false },
        some ⟨.InvalidValue, "memory limit too low"⟩) :=
  setProperty_apply_error_rollback exPropCt 0 "268435456"
    ⟨.InvalidValue, "memory limit too low"⟩ rfl rfl

/-- C10: `SetProperty` on the root container returns `Permission` for every
property and value, before anything is parsed or written, and leaves the
container unchanged. -/
theorem setProperty_root_permission (ct : PropCt) (p : Nat) (v : String)
    (canSetErr getErr setErr applyErr : Option TError) (hroot : ct.isRoot = true) :
    setProperty ct p v canSetErr getErr setErr applyErr =
      (ct, some ⟨.Permission, "System containers are read only"⟩) := by
  simp [setProperty, hroot]

/-- C10 witness: `setProperty_root_permission` at a concrete call. -/
theorem setProperty_root_permission_witness :
    setProperty exRootPropCt 3 "1000000" none none none none =
      (exRootPropCt, some ⟨.Permission, "System containers are read only"⟩) :=
  setProperty_root_permission exRootPropCt 3 "1000000" none none none none rfl

/-- C7 counterexample: the parent is overcommitted and its vacant set is the
whole affinity; the claim predicts failure, but the code only logs the
overcommit and continues. -/
theorem cpu_overcommit_cex :
    claimCpuCheckFails exCpuParent = true ∧
    cpuGuaranteeCheck exCpuParent = none := by
  decide

/-- C7 (amended): on overcommit the distribution fails with
`ResourceNotAvailable` exactly when the parent's vacant set differs from its
affinity; when the vacant set is already the whole affinity the overcommit is
only logged and the distribution continues. -/
theorem cpu_overcommit_check (parent : CpuParent) :
    (∃ e, cpuGuaranteeCheck parent = some e ∧ e.kind = .ResourceNotAvailable) ↔
    (vacantGuarantee parent.children > parent.cpuVacant.card * CPU_POWER_PER_SEC ∧
      parent.cpuVacant ≠ parent.cpuAffinity) := by
  unfold cpuGuaranteeCheck
  split_ifs with h1 h2 <;> simp_all

/-- C8: the memory-guarantee check fails — with kind `ResourceNotAvailable`
and a text mentioning the overcommit — exactly when the root's rolled-up
total (stopped containers contribute zero, every other node the max of its
own guarantee and its children's totals) plus the reserve exceeds host
memory; otherwise it passes. -/
theorem memGuarantee_overcommit_check (t : MemTree) (hostTotal reserve : Nat) :
    (∃ e, checkMemGuarantee t hostTotal reserve = some e ∧
       e.kind = .ResourceNotAvailable ∧ mentionsOvercommit e.text) ↔
    getTotalMemGuarantee t + reserve > hostTotal := by
  unfold checkMemGuarantee
  dsimp only
  split_ifs with h1
  · simp only [h1, iff_true]
    refine ⟨_, rfl, rfl, "Memory guarantee ",
      " by " ++ toString (getTotalMemGuarantee t + reserve - hostTotal) ++ " bytes", ?_⟩
    rfl
  · simp [h1]

/-- C9: if the task launcher fails during `Start` while an OOM event has been
received, the error surfaced to the caller is `ResourceNotAvailable` with
text "OOM at container <name> start: ...", never `Unknown`, and the container
ends up `Stopped`. -/
theorem start_oom_surfaced_as_resource_not_available (name : String)
    (ct : StartCt) (e : TError) :
    (startAfterTask ct (startTaskResult name (some e) true)).2 =
      some ⟨.ResourceNotAvailable,
        "OOM at container " ++ name ++ " start: " ++ e.text⟩ ∧
    (startAfterTask ct (startTaskResult name (some e) true)).1.state = .stopped ∧
    ((startAfterTask ct (startTaskResult name (some e) true)).2.all
      fun e' => e'.kind == EError.ResourceNotAvailable
                && !(e'.kind == EError.Unknown)) = true := by
  exact ⟨rfl, rfl, rfl⟩

end Porto
